import Mathlib

/-!
# Verification of the tagged-URN core (`src/tagged_urn.go`, package `taggedurn`)

Shallow embedding of the five-state variant of `tagged_urn.go` (the first
`package taggedurn` unit of the file; the claims' line references all point
there).

Modelling conventions:

* Characters are Lean `Char`.  Go's `unicode.IsLetter`, `unicode.IsDigit`,
  `unicode.IsUpper` and `unicode.ToLower` are modelled on their ASCII
  fragments (every literal appearing in the grammar, in the sentinels and in
  the claims is ASCII): `goIsLetter`, `goIsDigit`, `goIsUpper`, `goToLower`.
* Go's unordered `map[string]string` is modelled as an association list that
  is kept strictly ascending by key (`tagsInsert` / `tagsLookup`).  This is a
  faithful quotient: every operation of the source is insensitive to map
  iteration order (`Matches`, `IsCompatibleWith` take a conjunction over the
  key set, `Specificity` a sum, `ToString` sorts the keys before emitting).
* `fmt.Sprintf` error message strings are elided: a `TaggedUrnError` is
  modelled by its `Code` alone, which is all the spec's error taxonomy and
  the claims depend on.
* Fallible Go functions returning `(T, error)` become `Except TaggedUrnError T`.
* The Go source field `prefix` of `TaggedUrn` is named `pfx` here, and the
  accessor `GetPrefix` is the field projection.
-/

namespace TaggedUrnGo

/-- ASCII fragment of Go's `unicode.IsUpper`. -/
def goIsUpper (c : Char) : Bool := decide ('A' ≤ c ∧ c ≤ 'Z')

/-- ASCII fragment of Go's `unicode.IsLetter`. -/
def goIsLetter (c : Char) : Bool :=
  decide (('A' ≤ c ∧ c ≤ 'Z') ∨ ('a' ≤ c ∧ c ≤ 'z'))

/-- ASCII fragment of Go's `unicode.IsDigit`. -/
def goIsDigit (c : Char) : Bool := decide ('0' ≤ c ∧ c ≤ '9')

/-- ASCII fragment of Go's `unicode.ToLower`, written as the explicit
26-entry lookup table for the upper-case letters. -/
def goToLower (c : Char) : Char :=
  if c = 'A' then 'a' else if c = 'B' then 'b' else if c = 'C' then 'c'
  else if c = 'D' then 'd' else if c = 'E' then 'e' else if c = 'F' then 'f'
  else if c = 'G' then 'g' else if c = 'H' then 'h' else if c = 'I' then 'i'
  else if c = 'J' then 'j' else if c = 'K' then 'k' else if c = 'L' then 'l'
  else if c = 'M' then 'm' else if c = 'N' then 'n' else if c = 'O' then 'o'
  else if c = 'P' then 'p' else if c = 'Q' then 'q' else if c = 'R' then 'r'
  else if c = 'S' then 's' else if c = 'T' then 't' else if c = 'U' then 'u'
  else if c = 'V' then 'v' else if c = 'W' then 'w' else if c = 'X' then 'x'
  else if c = 'Y' then 'y' else if c = 'Z' then 'z' else c

/-- ASCII fragment of Go's `strings.ToLower`. -/
def goStrToLower (s : String) : String := String.mk (s.data.map goToLower)

/-- Error codes of the source (`ErrorInvalidFormat` … `ErrorPrefixMismatch`).
`TaggedUrnError` keeps only the `Code` field; the `Message` strings are
elided. -/
structure TaggedUrnError where
  Code : Nat
  deriving DecidableEq, Repr

def ErrorInvalidFormat : Nat := 1
def ErrorEmptyTag : Nat := 2
def ErrorInvalidCharacter : Nat := 3
def ErrorInvalidTagFormat : Nat := 4
def ErrorMissingPrefix : Nat := 5
def ErrorDuplicateKey : Nat := 6
def ErrorNumericKey : Nat := 7
def ErrorUnterminatedQuote : Nat := 8
def ErrorInvalidEscapeSequence : Nat := 9
/-- The source constant is named `ErrorEmptyPrefix`. -/
def ErrorPrefixIsEmpty : Nat := 10
def ErrorPrefixMismatch : Nat := 11

/-- Decidable equality for `Except`, so concrete runs of the fallible
operations can be settled by `decide`. -/
instance {ε α : Type} [DecidableEq ε] [DecidableEq α] : DecidableEq (Except ε α) := fun x y =>
  match x, y with
  | .error a, .error b =>
    if h : a = b then .isTrue (h ▸ rfl) else .isFalse (fun hh => h (Except.error.inj hh))
  | .ok a, .ok b =>
    if h : a = b then .isTrue (h ▸ rfl) else .isFalse (fun hh => h (Except.ok.inj hh))
  | .error _, .ok _ => .isFalse (fun hh => Except.noConfusion hh)
  | .ok _, .error _ => .isFalse (fun hh => Except.noConfusion hh)

/-- The `isValidKeyChar` predicate of the source. -/
def isValidKeyChar (c : Char) : Bool :=
  goIsLetter c || goIsDigit c || c = '_' || c = '-' || c = '/' || c = ':' || c = '.'

/-- The `isValidUnquotedValueChar` predicate of the source. -/
def isValidUnquotedValueChar (c : Char) : Bool :=
  goIsLetter c || goIsDigit c || c = '_' || c = '-' || c = '/' || c = ':' ||
    c = '.' || c = '*' || c = '?' || c = '!'

/-- The `needsQuoting` predicate of the source. -/
def needsQuoting (value : String) : Bool :=
  value.data.any fun c =>
    c = ';' || c = '=' || c = '"' || c = '\\' || c = ' ' || goIsUpper c

/-- One character of `quoteValue`: `"` and `\` get a backslash escape. -/
def quoteChar (c : Char) : List Char :=
  if c = '"' || c = '\\' then ['\\', c] else [c]

/-- The `quoteValue` function of the source. -/
def quoteValue (value : String) : String :=
  String.mk ('"' :: (value.data.map quoteChar).flatten ++ ['"'])

/-- The `numericPattern` regexp `^[0-9]+$` of the source: non-empty and all
digits. -/
def isPurelyNumeric (s : String) : Bool := s ≠ "" && s.data.all goIsDigit

/-- Lookup in the association-list model of the Go tag map. -/
def tagsLookup : List (String × String) → String → Option String
  | [], _ => none
  | (k, v) :: rest, key => if k = key then some v else tagsLookup rest key

/-- Lexicographic (code-point) strict order on character lists; on ASCII
data this is exactly Go's byte-wise `<` on strings (what `sort.Strings`
uses). -/
def charsLt : List Char → List Char → Bool
  | [], [] => false
  | [], _ :: _ => true
  | _ :: _, [] => false
  | a :: as, b :: bs => if a = b then charsLt as bs else decide (a.toNat < b.toNat)

/-- Lexicographic (code-point) strict order on strings. -/
def strLt (a b : String) : Bool := charsLt a.data b.data

/-- Insert-or-replace in the association-list model of the Go tag map,
keeping the list strictly ascending by key. -/
def tagsInsert : List (String × String) → String → String → List (String × String)
  | [], key, val => [(key, val)]
  | (k, v) :: rest, key, val =>
    if key = k then (key, val) :: rest
    else if strLt key k then (key, val) :: (k, v) :: rest
    else (k, v) :: tagsInsert rest key val

/-- The `TaggedUrn` value: a prefix (source field `prefix`) and the tag map
(as the canonical ascending association list). -/
structure TaggedUrn where
  pfx : String
  tags : List (String × String)
  deriving DecidableEq, Repr

/-- Parser states of the source state machine. -/
inductive ParseState
  | expectingKey
  | inKey
  | expectingValue
  | inUnquotedValue
  | inQuotedValue
  | inQuotedValueEscape
  | expectingSemiOrEnd
  deriving DecidableEq, Repr

/-- The `finishTag` closure of `NewTaggedUrnFromString`: validates the
pending key/value and stores them. -/
def finishTag (tags : List (String × String)) (currentKey currentValue : List Char) :
    Except TaggedUrnError (List (String × String)) :=
  if String.mk currentKey = "" then .error ⟨ErrorEmptyTag⟩
  else if String.mk currentValue = "" then .error ⟨ErrorEmptyTag⟩
  else if (tagsLookup tags (String.mk currentKey)).isSome then .error ⟨ErrorDuplicateKey⟩
  else if isPurelyNumeric (String.mk currentKey) then .error ⟨ErrorNumericKey⟩
  else .ok (tagsInsert tags (String.mk currentKey) (String.mk currentValue))

/-- The character-by-character loop of `NewTaggedUrnFromString`, including
the end-of-input switch.  The builders `currentKey` / `currentValue` are the
two `strings.Builder`s; their `Reset` after `finishTag` is modelled by
passing `[]` on the continuation. -/
def parseLoop : List Char → ParseState → List (String × String) → List Char → List Char →
    Except TaggedUrnError (List (String × String))
  | [], state, tags, currentKey, currentValue =>
    match state with
    | .inUnquotedValue => finishTag tags currentKey currentValue
    | .expectingSemiOrEnd => finishTag tags currentKey currentValue
    | .expectingKey => .ok tags
    | .inQuotedValue => .error ⟨ErrorUnterminatedQuote⟩
    | .inQuotedValueEscape => .error ⟨ErrorUnterminatedQuote⟩
    | .inKey =>
      if currentKey = [] then .error ⟨ErrorEmptyTag⟩
      else finishTag tags currentKey (currentValue ++ ['*'])
    | .expectingValue => .error ⟨ErrorEmptyTag⟩
  | c :: rest, state, tags, currentKey, currentValue =>
    match state with
    | .expectingKey =>
      if c = ';' then parseLoop rest .expectingKey tags currentKey currentValue
      else if isValidKeyChar c then
        parseLoop rest .inKey tags (currentKey ++ [goToLower c]) currentValue
      else .error ⟨ErrorInvalidCharacter⟩
    | .inKey =>
      if c = '=' then
        if currentKey = [] then .error ⟨ErrorEmptyTag⟩
        else parseLoop rest .expectingValue tags currentKey currentValue
      else if c = ';' then
        if currentKey = [] then .error ⟨ErrorEmptyTag⟩
        else
          match finishTag tags currentKey (currentValue ++ ['*']) with
          | .error e => .error e
          | .ok tags1 => parseLoop rest .expectingKey tags1 [] []
      else if isValidKeyChar c then
        parseLoop rest .inKey tags (currentKey ++ [goToLower c]) currentValue
      else .error ⟨ErrorInvalidCharacter⟩
    | .expectingValue =>
      if c = '"' then parseLoop rest .inQuotedValue tags currentKey currentValue
      else if c = ';' then .error ⟨ErrorEmptyTag⟩
      else if isValidUnquotedValueChar c then
        parseLoop rest .inUnquotedValue tags currentKey (currentValue ++ [goToLower c])
      else .error ⟨ErrorInvalidCharacter⟩
    | .inUnquotedValue =>
      if c = ';' then
        match finishTag tags currentKey currentValue with
        | .error e => .error e
        | .ok tags1 => parseLoop rest .expectingKey tags1 [] []
      else if isValidUnquotedValueChar c then
        parseLoop rest .inUnquotedValue tags currentKey (currentValue ++ [goToLower c])
      else .error ⟨ErrorInvalidCharacter⟩
    | .inQuotedValue =>
      if c = '"' then parseLoop rest .expectingSemiOrEnd tags currentKey currentValue
      else if c = '\\' then parseLoop rest .inQuotedValueEscape tags currentKey currentValue
      else parseLoop rest .inQuotedValue tags currentKey (currentValue ++ [c])
    | .inQuotedValueEscape =>
      if c = '"' || c = '\\' then
        parseLoop rest .inQuotedValue tags currentKey (currentValue ++ [c])
      else .error ⟨ErrorInvalidEscapeSequence⟩
    | .expectingSemiOrEnd =>
      if c = ';' then
        match finishTag tags currentKey currentValue with
        | .error e => .error e
        | .ok tags1 => parseLoop rest .expectingKey tags1 [] []
      else .error ⟨ErrorInvalidCharacter⟩

/-- Split a character list at the first `':'` (Go: `strings.Index(s, ":")`),
returning the parts before and after it. -/
def splitAtFirstColon : List Char → Option (List Char × List Char)
  | [] => none
  | c :: rest =>
    if c = ':' then some ([], rest)
    else
      match splitAtFirstColon rest with
      | none => none
      | some (a, b) => some (c :: a, b)

/-- The tags part of the parse: the source returns the tag-free URN when
`tagsPart` is empty or a lone `";"`, and otherwise runs the state machine
from `stateExpectingKey` with empty builders. -/
def parseTagsPart (afterColon : List Char) :
    Except TaggedUrnError (List (String × String)) :=
  if afterColon = [] ∨ afterColon = [';'] then .ok []
  else parseLoop afterColon .expectingKey [] [] []

/-- The `NewTaggedUrnFromString` parser of the source. -/
def NewTaggedUrnFromString (s : String) : Except TaggedUrnError TaggedUrn :=
  if s = "" then .error ⟨ErrorInvalidFormat⟩
  else
    match splitAtFirstColon s.data with
    | none => .error ⟨ErrorMissingPrefix⟩
    | some (beforeColon, afterColon) =>
      if beforeColon = [] then .error ⟨ErrorPrefixIsEmpty⟩
      else
        match parseTagsPart afterColon with
        | .error e => .error e
        | .ok tags => .ok ⟨String.mk (beforeColon.map goToLower), tags⟩

/-- The `NewTaggedUrnFromTags` constructor.  Go iterates the input map in
unspecified order; the embedding takes the entries as a list and folds the
same per-entry insertion (the order is visible only when two keys collide
after lowercasing). -/
def NewTaggedUrnFromTags (p : String) (tags : List (String × String)) : TaggedUrn :=
  ⟨goStrToLower p, tags.foldl (fun acc kv => tagsInsert acc (goStrToLower kv.1) kv.2) []⟩

/-- The `Empty` constructor. -/
def Empty (p : String) : TaggedUrn := ⟨goStrToLower p, []⟩

/-- The `GetTag` accessor: the key is lowercased for the lookup; the Go pair
`(string, bool)` becomes an `Option`. -/
def GetTag (c : TaggedUrn) (key : String) : Option String :=
  tagsLookup c.tags (goStrToLower key)

/-- The `HasTag` accessor. -/
def HasTag (c : TaggedUrn) (key value : String) : Bool :=
  tagsLookup c.tags (goStrToLower key) == some value

/-- The `WithTag` mutator: the key is lowercased, the value stored as-is. -/
def WithTag (c : TaggedUrn) (key value : String) : TaggedUrn :=
  ⟨c.pfx, tagsInsert c.tags (goStrToLower key) value⟩

/-- The `WithoutTag` mutator: the key is lowercased for the removal. -/
def WithoutTag (c : TaggedUrn) (key : String) : TaggedUrn :=
  ⟨c.pfx, c.tags.filter fun kv => kv.1 != goStrToLower key⟩

/-- The `valuesMatch` per-key rule of the source, on the raw stored strings
(`none` = the key is absent on that side). -/
def valuesMatch (inst patt : Option String) : Bool :=
  match patt with
  | none => true
  | some p =>
    if p = "?" then true
    else if inst = some "?" then true
    else if p = "!" then
      match inst with
      | none => true
      | some i => if i = "!" then true else false
    else if inst = some "!" then false
    else if p = "*" then
      match inst with
      | none => false
      | some _ => true
    else
      match inst with
      | none => false
      | some i => if i = "*" then true else if i = p then true else false

/-- The key set the cross-URN loops of `Matches` / `IsCompatibleWith` range
over: all keys of either side (as a list; duplicates are harmless under the
conjunction). -/
def allKeysOf (a b : TaggedUrn) : List String :=
  a.tags.map Prod.fst ++ b.tags.map Prod.fst

/-- The `Matches` operation of the source (instance = receiver, pattern =
argument). -/
def Matches (c pattern : TaggedUrn) : Except TaggedUrnError Bool :=
  if c.pfx ≠ pattern.pfx then .error ⟨ErrorPrefixMismatch⟩
  else
    .ok ((allKeysOf c pattern).all fun key =>
      valuesMatch (tagsLookup c.tags key) (tagsLookup pattern.tags key))

/-- The `CanHandle` alias of `Matches`. -/
def CanHandle (c request : TaggedUrn) : Except TaggedUrnError Bool :=
  Matches c request

/-- The `Specificity` score of the source (`int` modelled as `Int`). -/
def Specificity (c : TaggedUrn) : Int :=
  c.tags.foldl
    (fun score kv =>
      if kv.2 = "?" then score + 0
      else if kv.2 = "!" then score + 1
      else if kv.2 = "*" then score + 2
      else score + 3)
    0

/-- The `valuesCompatible` per-key rule of the source. -/
def valuesCompatible (v1 v2 : Option String) : Bool :=
  match v1, v2 with
  | none, _ => true
  | _, none => true
  | some a, some b =>
    if a = "?" ∨ b = "?" then true
    else if a = "!" ∧ b = "!" then true
    else if a = "!" ∨ b = "!" then false
    else if a = "*" ∧ b = "*" then true
    else if a = "*" ∨ b = "*" then true
    else if a = b then true else false

/-- The `IsCompatibleWith` operation of the source. -/
def IsCompatibleWith (c other : TaggedUrn) : Except TaggedUrnError Bool :=
  if c.pfx ≠ other.pfx then .error ⟨ErrorPrefixMismatch⟩
  else
    .ok ((allKeysOf c other).all fun key =>
      valuesCompatible (tagsLookup c.tags key) (tagsLookup other.tags key))

/-- The `IsMoreSpecificThan` operation of the source. -/
def IsMoreSpecificThan (c other : TaggedUrn) : Except TaggedUrnError Bool :=
  if c.pfx ≠ other.pfx then .error ⟨ErrorPrefixMismatch⟩
  else
    match IsCompatibleWith c other with
    | .error e => .error e
    | .ok false => .ok false
    | .ok true => .ok (decide (Specificity c > Specificity other))

/-- The `WithWildcardTag` mutator: note the source looks the key up verbatim
(no lowercasing), unlike `GetTag` / `WithTag` / `WithoutTag`. -/
def WithWildcardTag (c : TaggedUrn) (key : String) : TaggedUrn :=
  if (tagsLookup c.tags key).isSome then WithTag c key "*" else c

/-- The `Subset` operation: keeps only the listed keys (looked up verbatim). -/
def Subset (c : TaggedUrn) (keys : List String) : TaggedUrn :=
  ⟨c.pfx,
    keys.foldl
      (fun acc key =>
        match tagsLookup c.tags key with
        | some value => tagsInsert acc key value
        | none => acc)
      []⟩

/-- The `Merge` operation: the other URN's tags overwrite the receiver's. -/
def Merge (c other : TaggedUrn) : Except TaggedUrnError TaggedUrn :=
  if c.pfx ≠ other.pfx then .error ⟨ErrorPrefixMismatch⟩
  else .ok ⟨c.pfx, other.tags.foldl (fun acc kv => tagsInsert acc kv.1 kv.2) c.tags⟩

/-- One serialized entry of `ToString`. -/
def serializeTag (key value : String) : String :=
  if value = "*" then key
  else if value = "?" then key ++ "=?"
  else if value = "!" then key ++ "=!"
  else if needsQuoting value then key ++ "=" ++ quoteValue value
  else key ++ "=" ++ value

/-- The canonical serializer `ToString` of the source.  The Go code sorts
the map keys ascending before emitting; the association-list model already
stores them in exactly that order. -/
def ToString (c : TaggedUrn) : String :=
  if c.tags = [] then c.pfx ++ ":"
  else
    c.pfx ++ ":" ++
      String.intercalate ";" (c.tags.map fun kv => serializeTag kv.1 kv.2)

/-- The `Equals` comparison of the source: same prefix, same tag count, and
every tag of the receiver present with the same value in the other. -/
def Equals (c other : TaggedUrn) : Bool :=
  c.pfx == other.pfx && c.tags.length == other.tags.length &&
    c.tags.all fun kv => tagsLookup other.tags kv.1 == some kv.2

/-- The loop of `UrnMatcher.FindBestMatch`, with the running `best` /
`bestSpecificity` accumulators (initially `none` / `-1`). -/
def findBestMatchGo (request : TaggedUrn) :
    List TaggedUrn → Option TaggedUrn → Int → Except TaggedUrnError (Option TaggedUrn)
  | [], best, _ => .ok best
  | urn :: rest, best, bestSpecificity =>
    match CanHandle urn request with
    | .error e => .error e
    | .ok canHandle =>
      if canHandle then
        if Specificity urn > bestSpecificity then
          findBestMatchGo request rest (some urn) (Specificity urn)
        else findBestMatchGo request rest best bestSpecificity
      else findBestMatchGo request rest best bestSpecificity

/-- The `UrnMatcher.FindBestMatch` selector of the source. -/
def FindBestMatch (urns : List TaggedUrn) (request : TaggedUrn) :
    Except TaggedUrnError (Option TaggedUrn) :=
  findBestMatchGo request urns none (-1)

/-- The `TaggedUrnBuilder` of the source (field `prefix` again named `pfx`). -/
structure TaggedUrnBuilder where
  pfx : String
  tags : List (String × String)
  deriving DecidableEq, Repr

/-- The `NewTaggedUrnBuilder` constructor. -/
def NewTaggedUrnBuilder (p : String) : TaggedUrnBuilder := ⟨goStrToLower p, []⟩

/-- The builder's `Tag`: lowercases the key, stores the value as-is, no
validation. -/
def TaggedUrnBuilder.Tag (b : TaggedUrnBuilder) (key value : String) : TaggedUrnBuilder :=
  ⟨b.pfx, tagsInsert b.tags (goStrToLower key) value⟩

/-- The builder's `Build`: fails only on an empty tag set. -/
def TaggedUrnBuilder.Build (b : TaggedUrnBuilder) : Except TaggedUrnError TaggedUrn :=
  if b.tags = [] then .error ⟨ErrorInvalidFormat⟩ else .ok ⟨b.pfx, b.tags⟩

/-! ## The whitespace check missing from the src snapshot

`src/tagged_urn_test.go` (`TestWhitespaceInInputRejected`) asserts that
`NewTaggedUrnFromString " cap:op=test"` fails with a dedicated
`ErrorWhitespaceInInput` code, but neither that constant's declaration nor
the corresponding check appears anywhere under `src/`; the parser above
happily accepts `" p:op=test"` with prefix `" p"`.  The missing fragment is
modelled from the spec below. -/

/-- Modelled from the spec: the declaration of the `ErrorWhitespaceInInput`
code referenced by `src/tagged_urn_test.go` is missing from the src
snapshot. -/
def ErrorWhitespaceInInput : Nat := 12

/-- ASCII fragment of Go's `unicode.IsSpace` (the characters
`strings.TrimSpace` trims). -/
def goIsSpace (c : Char) : Bool :=
  c = ' ' || c = '\t' || c = '\n' || c = '\x0b' || c = '\x0c' || c = '\r'

/-- Whether the raw input starts or ends with a whitespace character. -/
def hasLeadingOrTrailingWhitespace (s : String) : Bool :=
  match s.data with
  | [] => false
  | c :: rest => goIsSpace c || goIsSpace ((c :: rest).getLastD c)

/-- Modelled from the spec: the full parser entry point of the repository
also rejects "leading or trailing whitespace anywhere in the raw input
(reject, do not trim)" with the distinct `WhitespaceInInput` error kind;
this guard and `ErrorWhitespaceInInput` are missing from the src snapshot
(only `src/tagged_urn_test.go` exercises them), so the guard is modelled
here in front of the src parser. -/
def NewTaggedUrnFromStringChecked (s : String) : Except TaggedUrnError TaggedUrn :=
  if hasLeadingOrTrailingWhitespace s then .error ⟨ErrorWhitespaceInInput⟩
  else NewTaggedUrnFromString s

/-! ## The five logical states of the spec (section 3 / 4.3)

The source stores the five logical value-states as raw strings; the spec
describes them as the closed sum {Absent, Unspecified, MustNotHave,
MustHaveAny, Exact(v)}.  `TagState` and the definitions below are the
spec-side vocabulary the refinement claims are stated against. -/

/-- The five logical states of a key, per spec section 3. -/
inductive TagState
  | absent
  | unspecified
  | mustNotHave
  | mustHaveAny
  | exact (v : String)
  deriving DecidableEq, Repr

/-- The logical state of a stored raw value (`none` = key not present). -/
def stateOf : Option String → TagState
  | none => .absent
  | some v =>
    if v = "?" then .unspecified
    else if v = "!" then .mustNotHave
    else if v = "*" then .mustHaveAny
    else .exact v

/-- The per-key matching rule of spec section 4.3, written per its priority
order: (1) pattern Absent/Unspecified matches anything; (2) instance
Unspecified matches anything; (3) pattern MustNotHave matches iff the
instance is Absent or MustNotHave; (4) instance MustNotHave otherwise
fails; (5) pattern MustHaveAny matches iff the instance is not Absent;
(6) pattern Exact(w) matches iff the instance is MustHaveAny or Exact(w). -/
def specPerKeyRule (inst patt : TagState) : Bool :=
  match patt with
  | .absent => true
  | .unspecified => true
  | .mustNotHave =>
    if inst = .unspecified then true
    else decide (inst = .absent ∨ inst = .mustNotHave)
  | .mustHaveAny =>
    if inst = .unspecified then true
    else if inst = .mustNotHave then false
    else decide (inst ≠ .absent)
  | .exact w =>
    if inst = .unspecified then true
    else if inst = .mustNotHave then false
    else decide (inst = .mustHaveAny ∨ inst = .exact w)

/-- The per-value specificity weight of spec section 4.4: Exact = 3,
MustHaveAny = 2, MustNotHave = 1, Unspecified = 0 (Absent contributes
nothing). -/
def specWeight : TagState → Int
  | .exact _ => 3
  | .mustHaveAny => 2
  | .mustNotHave => 1
  | .unspecified => 0
  | .absent => 0

/-! ## Helper lemmas -/

/-- The raw-string per-key rule of the source agrees with the five-state
rule of the spec on every pair of stored values. -/
theorem valuesMatch_eq_specRule (inst patt : Option String) :
    valuesMatch inst patt = specPerKeyRule (stateOf inst) (stateOf patt) := by
  cases patt with
  | none => cases inst <;> simp [valuesMatch, stateOf, specPerKeyRule]
  | some p =>
    cases inst with
    | none =>
      by_cases hp1 : p = "?" <;> by_cases hp2 : p = "!" <;> by_cases hp3 : p = "*" <;>
        simp_all [valuesMatch, stateOf, specPerKeyRule]
    | some i =>
      by_cases hp1 : p = "?" <;> by_cases hp2 : p = "!" <;> by_cases hp3 : p = "*" <;>
        by_cases hi1 : i = "?" <;> by_cases hi2 : i = "!" <;> by_cases hi3 : i = "*" <;>
        by_cases hip : i = p <;>
        simp_all [valuesMatch, stateOf, specPerKeyRule]

/-- With equal prefixes, `Matches` is the conjunction of the per-key rule
over the keys of both sides. -/
theorem Matches_eq_all (a b : TaggedUrn) (h : a.pfx = b.pfx) :
    Matches a b =
      .ok ((allKeysOf a b).all fun key =>
        valuesMatch (tagsLookup a.tags key) (tagsLookup b.tags key)) := by
  simp [Matches, h]

/-- Unfolding of `Specificity`'s fold into a sum of spec-side weights, with
a general accumulator. -/
theorem specificity_foldl (l : List (String × String)) (z : Int) :
    List.foldl
        (fun score kv =>
          if kv.2 = "?" then score + 0
          else if kv.2 = "!" then score + 1
          else if kv.2 = "*" then score + 2
          else score + 3)
        z l
      = z + (l.map fun kv => specWeight (stateOf (some kv.2))).sum := by
  induction l generalizing z with
  | nil => simp
  | cons kv rest ih =>
    simp only [List.foldl_cons, List.map_cons, List.sum_cons, ih]
    by_cases h1 : kv.2 = "?" <;> by_cases h2 : kv.2 = "!" <;> by_cases h3 : kv.2 = "*" <;>
      simp_all [specWeight, stateOf] <;> ring

/-- Every spec-side weight is non-negative. -/
theorem specWeight_nonneg (st : TagState) : 0 ≤ specWeight st := by
  cases st <;> simp [specWeight]

/-- `Specificity` is never negative (needed because `FindBestMatch` starts
its running best at `-1`). -/
theorem specificity_nonneg (u : TaggedUrn) : 0 ≤ Specificity u := by
  have h := specificity_foldl u.tags 0
  unfold Specificity
  rw [h]
  have : 0 ≤ (u.tags.map fun kv => specWeight (stateOf (some kv.2))).sum := by
    apply List.sum_nonneg
    intro x hx
    obtain ⟨kv, _, rfl⟩ := List.mem_map.mp hx
    exact specWeight_nonneg _
  omega

/-! ## Claim theorems -/

/-- C1: for every pair of TaggedUrns with equal prefixes, `Matches`
evaluates the per-key rule over the union of keys present in either side
and returns true iff every key-level evaluation matches, and the per-key
rule on (instance-state, pattern-state) is exactly the priority-ordered
truth table of spec section 4.3 (`specPerKeyRule`). -/
theorem C1_matches_per_key_truth_table :
    (∀ inst patt : Option String,
        valuesMatch inst patt = specPerKeyRule (stateOf inst) (stateOf patt)) ∧
    (∀ a b : TaggedUrn, a.pfx = b.pfx →
        Matches a b =
          .ok ((allKeysOf a b).all fun key =>
            specPerKeyRule (stateOf (tagsLookup a.tags key))
              (stateOf (tagsLookup b.tags key)))) := by
  constructor
  · exact valuesMatch_eq_specRule
  · intro a b h
    rw [Matches_eq_all a b h]
    have hfun :
        (fun key => valuesMatch (tagsLookup a.tags key) (tagsLookup b.tags key)) =
          fun key =>
            specPerKeyRule (stateOf (tagsLookup a.tags key))
              (stateOf (tagsLookup b.tags key)) :=
      funext fun key => valuesMatch_eq_specRule _ _
    rw [hfun]

/-- Closed witness for C1 at a concrete pair of URNs with equal prefixes. -/
theorem C1_witness :
    Matches ⟨"p", [("k", "v")]⟩ ⟨"p", [("k", "*")]⟩ =
      .ok ((allKeysOf ⟨"p", [("k", "v")]⟩ ⟨"p", [("k", "*")]⟩).all fun key =>
        specPerKeyRule (stateOf (tagsLookup [("k", "v")] key))
          (stateOf (tagsLookup [("k", "*")] key))) :=
  C1_matches_per_key_truth_table.2 ⟨"p", [("k", "v")]⟩ ⟨"p", [("k", "*")]⟩ rfl

/-- C5: for every pair of TaggedUrns with different prefixes, each of
`Matches`, `IsCompatibleWith`, `IsMoreSpecificThan` and `Merge` returns the
`PrefixMismatch` error rather than any non-error result. -/
theorem C5_cross_prefix_is_error :
    ∀ a b : TaggedUrn, a.pfx ≠ b.pfx →
      Matches a b = .error ⟨ErrorPrefixMismatch⟩ ∧
      IsCompatibleWith a b = .error ⟨ErrorPrefixMismatch⟩ ∧
      IsMoreSpecificThan a b = .error ⟨ErrorPrefixMismatch⟩ ∧
      Merge a b = .error ⟨ErrorPrefixMismatch⟩ := by
  intro a b h
  refine ⟨?_, ?_, ?_, ?_⟩ <;> simp [Matches, IsCompatibleWith, IsMoreSpecificThan, Merge, h]

/-- Closed witness for C5 at a concrete cross-prefix pair. -/
theorem C5_witness :
    Matches ⟨"a", []⟩ ⟨"b", []⟩ = .error ⟨ErrorPrefixMismatch⟩ ∧
    IsCompatibleWith ⟨"a", []⟩ ⟨"b", []⟩ = .error ⟨ErrorPrefixMismatch⟩ ∧
    IsMoreSpecificThan ⟨"a", []⟩ ⟨"b", []⟩ = .error ⟨ErrorPrefixMismatch⟩ ∧
    Merge ⟨"a", []⟩ ⟨"b", []⟩ = .error ⟨ErrorPrefixMismatch⟩ :=
  C5_cross_prefix_is_error ⟨"a", []⟩ ⟨"b", []⟩ (by decide)

/-- C6: `Specificity` is the sum over the stored tags of the spec-side
weight Exact = 3, MustHaveAny = 2, MustNotHave = 1, Unspecified = 0 (absent
keys are not stored), and on the spec's three examples it yields 9, 6
and 0. -/
theorem C6_specificity_graded_sum :
    (∀ u : TaggedUrn,
        Specificity u = (u.tags.map fun kv => specWeight (stateOf (some kv.2))).sum) ∧
    (NewTaggedUrnFromString "p:a=x;b=y;c=z").map Specificity = .ok 9 ∧
    (NewTaggedUrnFromString "p:a;b;c").map Specificity = .ok 6 ∧
    (NewTaggedUrnFromString "p:a=?;b=?").map Specificity = .ok 0 := by
  refine ⟨fun u => ?_, by rfl, by rfl, by rfl⟩
  have h := specificity_foldl u.tags 0
  unfold Specificity
  rw [h]
  ring

/-- The per-key compatibility rule holds on every value paired with
itself. -/
theorem valuesCompatible_self (x : Option String) : valuesCompatible x x = true := by
  cases x with
  | none => simp [valuesCompatible]
  | some a =>
    by_cases h1 : a = "?" <;> by_cases h2 : a = "!" <;> by_cases h3 : a = "*" <;>
      simp_all [valuesCompatible]

/-- The per-key compatibility rule is symmetric. -/
theorem valuesCompatible_comm (x y : Option String) :
    valuesCompatible x y = valuesCompatible y x := by
  cases x with
  | none => cases y <;> simp [valuesCompatible]
  | some a =>
    cases y with
    | none => simp [valuesCompatible]
    | some b =>
      by_cases h1 : a = "?" <;> by_cases h2 : b = "?" <;>
        by_cases h3 : a = "!" <;> by_cases h4 : b = "!" <;>
        by_cases h5 : a = "*" <;> by_cases h6 : b = "*" <;>
        by_cases h7 : a = b <;>
        simp_all [valuesCompatible, eq_comm]

/-- C7: with equal prefixes, `IsCompatibleWith` is reflexive and symmetric;
at key level, two distinct Exact values are never compatible, and
MustNotHave is never compatible with MustHaveAny or with any Exact value
(in either order). -/
theorem C7_compatibility_laws :
    (∀ a : TaggedUrn, IsCompatibleWith a a = .ok true) ∧
    (∀ a b : TaggedUrn, a.pfx = b.pfx → IsCompatibleWith a b = IsCompatibleWith b a) ∧
    (∀ v w : String, stateOf (some v) = .exact v → stateOf (some w) = .exact w →
        v ≠ w → valuesCompatible (some v) (some w) = false) ∧
    (∀ w : String, stateOf (some w) = .exact w →
        valuesCompatible (some "!") (some w) = false ∧
        valuesCompatible (some w) (some "!") = false) ∧
    valuesCompatible (some "!") (some "*") = false ∧
    valuesCompatible (some "*") (some "!") = false := by
  refine ⟨?_, ?_, ?_, ?_, by decide, by decide⟩
  · intro a
    have e0 : IsCompatibleWith a a =
        .ok ((allKeysOf a a).all fun key =>
          valuesCompatible (tagsLookup a.tags key) (tagsLookup a.tags key)) := by
      simp [IsCompatibleWith]
    rw [e0]
    congr 1
    rw [List.all_eq_true]
    intro k _
    exact valuesCompatible_self _
  · intro a b h
    have e1 : IsCompatibleWith a b =
        .ok ((allKeysOf a b).all fun key =>
          valuesCompatible (tagsLookup a.tags key) (tagsLookup b.tags key)) := by
      simp [IsCompatibleWith, h]
    have e2 : IsCompatibleWith b a =
        .ok ((allKeysOf b a).all fun key =>
          valuesCompatible (tagsLookup b.tags key) (tagsLookup a.tags key)) := by
      simp [IsCompatibleWith, h]
    rw [e1, e2]
    have hfun :
        (fun key => valuesCompatible (tagsLookup a.tags key) (tagsLookup b.tags key)) =
          fun key => valuesCompatible (tagsLookup b.tags key) (tagsLookup a.tags key) :=
      funext fun key => valuesCompatible_comm _ _
    rw [hfun]
    unfold allKeysOf
    rw [List.all_append, List.all_append, Bool.and_comm]
  · intro v w hv hw hvw
    by_cases h1 : v = "?" <;> by_cases h2 : v = "!" <;> by_cases h3 : v = "*" <;>
      by_cases h4 : w = "?" <;> by_cases h5 : w = "!" <;> by_cases h6 : w = "*" <;>
      simp_all [stateOf, valuesCompatible]
  · intro w hw
    by_cases h4 : w = "?" <;> by_cases h5 : w = "!" <;> by_cases h6 : w = "*" <;>
      simp_all [stateOf, valuesCompatible]

/-- Closed witness for C7 at concrete inputs. -/
theorem C7_witness :
    IsCompatibleWith ⟨"p", [("k", "v")]⟩ ⟨"p", [("k", "v")]⟩ = .ok true ∧
    IsCompatibleWith ⟨"p", [("a", "x")]⟩ ⟨"p", [("b", "y")]⟩ =
      IsCompatibleWith ⟨"p", [("b", "y")]⟩ ⟨"p", [("a", "x")]⟩ ∧
    valuesCompatible (some "v") (some "w") = false ∧
    valuesCompatible (some "!") (some "v") = false :=
  ⟨C7_compatibility_laws.1 ⟨"p", [("k", "v")]⟩,
   C7_compatibility_laws.2.1 ⟨"p", [("a", "x")]⟩ ⟨"p", [("b", "y")]⟩ rfl,
   C7_compatibility_laws.2.2.1 "v" "w" (by decide) (by decide) (by decide),
   (C7_compatibility_laws.2.2.2.1 "v" (by decide)).1⟩

/-- C3: every input with leading or trailing whitespace is rejected (not
trimmed) with the distinct `WhitespaceInInput` error kind, and in
particular `" p:op=test"` fails with it.  The whitespace guard is the
spec-modelled fragment in front of the src parser (see
`NewTaggedUrnFromStringChecked`). -/
theorem C3_whitespace_rejected :
    (∀ s : String, hasLeadingOrTrailingWhitespace s = true →
        NewTaggedUrnFromStringChecked s = .error ⟨ErrorWhitespaceInInput⟩) ∧
    NewTaggedUrnFromStringChecked " p:op=test" = .error ⟨ErrorWhitespaceInInput⟩ := by
  constructor
  · intro s h
    simp [NewTaggedUrnFromStringChecked, h]
  · decide

/-- Closed witness for C3 at an input with trailing whitespace. -/
theorem C3_witness :
    NewTaggedUrnFromStringChecked "cap:op=test " = .error ⟨ErrorWhitespaceInInput⟩ :=
  C3_whitespace_rejected.1 "cap:op=test " (by decide)

/-- C4 counterexample: the claim says the parses of `p:k="*"` and `p:k=*`
are not value-equal, but the source stores both as the raw string `"*"`,
and they are `Equals`. -/
theorem C4_counterexample :
    NewTaggedUrnFromString "p:k=\"*\"" = .ok ⟨"p", [("k", "*")]⟩ ∧
    NewTaggedUrnFromString "p:k=*" = .ok ⟨"p", [("k", "*")]⟩ ∧
    Equals ⟨"p", [("k", "*")]⟩ ⟨"p", [("k", "*")]⟩ = true := by
  refine ⟨rfl, rfl, rfl⟩

/-- C4 amended: a quoted value whose text is literally `*` parses to the
same stored sentinel `"*"` as the unquoted `p:k=*`; the two parses are
value-equal, the tag's logical state is MustHaveAny, serialization emits
the bare key, and matching treats it as the wildcard (rejecting an absent
key and accepting any present value) rather than as an exact literal. -/
theorem C4_amended_quoted_star_is_wildcard :
    NewTaggedUrnFromString "p:k=\"*\"" = .ok ⟨"p", [("k", "*")]⟩ ∧
    stateOf (tagsLookup [("k", "*")] "k") = .mustHaveAny ∧
    ToString ⟨"p", [("k", "*")]⟩ = "p:k" ∧
    Matches ⟨"p", []⟩ ⟨"p", [("k", "*")]⟩ = .ok false ∧
    Matches ⟨"p", [("k", "x")]⟩ ⟨"p", [("k", "*")]⟩ = .ok true := by
  refine ⟨rfl, rfl, rfl, rfl, rfl⟩

/-- C2: evaluation of the round-trip failure.  `p:k="a,"` parses, its
canonical serialization is the unquoted `p:k=a,` (the comma neither
triggers `needsQuoting` nor is a valid unquoted-value character), and
re-parsing that serialization fails with `InvalidCharacter` instead of
returning a URN value-equal to the original. -/
theorem C2_roundtrip_failure_eval :
    NewTaggedUrnFromString "p:k=\"a,\"" = .ok ⟨"p", [("k", "a,")]⟩ ∧
    ToString ⟨"p", [("k", "a,")]⟩ = "p:k=a," ∧
    NewTaggedUrnFromString "p:k=a," = .error ⟨ErrorInvalidCharacter⟩ := by
  refine ⟨rfl, rfl, rfl⟩

/-- C10: `WithWildcardTag` looks its key up verbatim (no lowercasing): a
key that is not present verbatim leaves the URN unchanged, a
verbatim-present key is replaced by the wildcard; concretely, with stored
key `op`, the argument `OP` is a no-op for `WithWildcardTag` while
`GetTag` / `WithTag` / `WithoutTag` lowercase and do find or affect `op`. -/
theorem C10_withWildcardTag_verbatim :
    (∀ (u : TaggedUrn) (k : String),
        tagsLookup u.tags k = none → WithWildcardTag u k = u) ∧
    (∀ (u : TaggedUrn) (k v : String),
        tagsLookup u.tags k = some v → WithWildcardTag u k = WithTag u k "*") ∧
    (WithWildcardTag ⟨"p", [("op", "x")]⟩ "OP" = ⟨"p", [("op", "x")]⟩ ∧
      GetTag ⟨"p", [("op", "x")]⟩ "OP" = some "x" ∧
      WithTag ⟨"p", [("op", "x")]⟩ "OP" "*" = ⟨"p", [("op", "*")]⟩ ∧
      WithoutTag ⟨"p", [("op", "x")]⟩ "OP" = ⟨"p", []⟩) := by
  refine ⟨?_, ?_, rfl, rfl, rfl, rfl⟩
  · intro u k h
    simp [WithWildcardTag, h]
  · intro u k v h
    simp [WithWildcardTag, h]

/-- Closed witness for C10 at a concrete URN. -/
theorem C10_witness :
    WithWildcardTag ⟨"p", [("op", "x")]⟩ "other" = ⟨"p", [("op", "x")]⟩ ∧
    WithWildcardTag ⟨"p", [("op", "x")]⟩ "op" = WithTag ⟨"p", [("op", "x")]⟩ "op" "*" :=
  ⟨C10_withWildcardTag_verbatim.1 ⟨"p", [("op", "x")]⟩ "other" rfl,
   C10_withWildcardTag_verbatim.2.1 ⟨"p", [("op", "x")]⟩ "op" "x" rfl⟩

/-- Loop invariant of `findBestMatchGo`: relative to the already processed
candidates, the running `best` / `bestSpecificity` pair is `none` / `-1`
with every processed candidate failing, or the first-encountered matching
candidate of maximal specificity with its score. -/
theorem findBestMatchGo_spec (request : TaggedUrn) :
    ∀ (rest processed : List TaggedUrn) (best : Option TaggedUrn) (bs : Int),
      (∀ u ∈ rest, u.pfx = request.pfx) →
      ((best = none ∧ bs = -1 ∧ ∀ u ∈ processed, Matches u request = .ok false) ∨
        (∃ b pre post, best = some b ∧ bs = Specificity b ∧
          Matches b request = .ok true ∧ processed = pre ++ b :: post ∧
          (∀ u ∈ pre, Matches u request = .ok true → Specificity u < Specificity b) ∧
          (∀ u ∈ post, Matches u request = .ok true → Specificity u ≤ Specificity b))) →
      ∃ r, findBestMatchGo request rest best bs = .ok r ∧
        ((r = none ∧ ∀ u ∈ processed ++ rest, Matches u request = .ok false) ∨
          (∃ c pre post, r = some c ∧ Matches c request = .ok true ∧
            processed ++ rest = pre ++ c :: post ∧
            (∀ u ∈ pre, Matches u request = .ok true → Specificity u < Specificity c) ∧
            (∀ u ∈ post, Matches u request = .ok true → Specificity u ≤ Specificity c))) := by
  intro rest
  induction rest with
  | nil =>
    intro processed best bs _ hinv
    refine ⟨best, rfl, ?_⟩
    rcases hinv with ⟨h1, _, h3⟩ | ⟨b, pre, post, h1, _, h3, h4, h5, h6⟩
    · exact Or.inl ⟨h1, by simpa using h3⟩
    · exact Or.inr ⟨b, pre, post, h1, h3, by simpa using h4, h5, h6⟩
  | cons urn rest ih =>
    intro processed best bs hpfx hinv
    obtain ⟨m, hm⟩ : ∃ m : Bool, Matches urn request = .ok m :=
      ⟨_, Matches_eq_all urn request (hpfx urn (List.mem_cons_self _ _))⟩
    have hrestpfx : ∀ u ∈ rest, u.pfx = request.pfx :=
      fun u hu => hpfx u (List.mem_cons_of_mem _ hu)
    have hstep : findBestMatchGo request (urn :: rest) best bs =
        if m then
          (if Specificity urn > bs then
            findBestMatchGo request rest (some urn) (Specificity urn)
          else findBestMatchGo request rest best bs)
        else findBestMatchGo request rest best bs := by
      simp [findBestMatchGo, CanHandle, hm]
    cases m with
    | false =>
      rw [hstep]
      simp only [Bool.false_eq_true, if_false]
      have hinv2 :
          (best = none ∧ bs = -1 ∧
              ∀ u ∈ processed ++ [urn], Matches u request = .ok false) ∨
            (∃ b pre post, best = some b ∧ bs = Specificity b ∧
              Matches b request = .ok true ∧ processed ++ [urn] = pre ++ b :: post ∧
              (∀ u ∈ pre, Matches u request = .ok true → Specificity u < Specificity b) ∧
              (∀ u ∈ post, Matches u request = .ok true → Specificity u ≤ Specificity b)) := by
        rcases hinv with ⟨h1, h2, h3⟩ | ⟨b, pre, post, h1, h2, h3, h4, h5, h6⟩
        · refine Or.inl ⟨h1, h2, ?_⟩
          intro u hu
          rcases List.mem_append.mp hu with hu | hu
          · exact h3 u hu
          · rcases List.mem_singleton.mp hu with rfl
            exact hm
        · refine Or.inr ⟨b, pre, post ++ [urn], h1, h2, h3, ?_, h5, ?_⟩
          · rw [h4]
            simp
          · intro u hu hmu
            rcases List.mem_append.mp hu with hu | hu
            · exact h6 u hu hmu
            · rcases List.mem_singleton.mp hu with rfl
              rw [hm] at hmu
              cases hmu
      obtain ⟨r, hr, hpost⟩ := ih (processed ++ [urn]) best bs hrestpfx hinv2
      refine ⟨r, hr, ?_⟩
      rwa [List.append_assoc, List.singleton_append] at hpost
    | true =>
      rw [hstep]
      simp only [if_true]
      by_cases hgt : Specificity urn > bs
      · rw [if_pos hgt]
        have hbound : ∀ u ∈ processed, Matches u request = .ok true →
            Specificity u < Specificity urn := by
          rcases hinv with ⟨_, _, h3⟩ | ⟨b, pre, post, _, h2, _, h4, h5, h6⟩
          · intro u hu hmu
            rw [h3 u hu] at hmu
            cases hmu
          · intro u hu hmu
            subst h2
            rw [h4] at hu
            rcases List.mem_append.mp hu with hu | hu
            · exact lt_trans (h5 u hu hmu) hgt
            · rcases List.mem_cons.mp hu with rfl | hu
              · exact hgt
              · exact lt_of_le_of_lt (h6 u hu hmu) hgt
        have hinv2 :
            ((some urn : Option TaggedUrn) = none ∧ Specificity urn = -1 ∧
                ∀ u ∈ processed ++ [urn], Matches u request = .ok false) ∨
              (∃ b pre post, (some urn : Option TaggedUrn) = some b ∧
                Specificity urn = Specificity b ∧
                Matches b request = .ok true ∧ processed ++ [urn] = pre ++ b :: post ∧
                (∀ u ∈ pre, Matches u request = .ok true → Specificity u < Specificity b) ∧
                (∀ u ∈ post, Matches u request = .ok true →
                  Specificity u ≤ Specificity b)) :=
          Or.inr ⟨urn, processed, [], rfl, rfl, hm, by simp, hbound, by simp⟩
        obtain ⟨r, hr, hpost⟩ :=
          ih (processed ++ [urn]) (some urn) (Specificity urn) hrestpfx hinv2
        refine ⟨r, hr, ?_⟩
        rwa [List.append_assoc, List.singleton_append] at hpost
      · rw [if_neg hgt]
        have hinv2 :
            (best = none ∧ bs = -1 ∧
                ∀ u ∈ processed ++ [urn], Matches u request = .ok false) ∨
              (∃ b pre post, best = some b ∧ bs = Specificity b ∧
                Matches b request = .ok true ∧ processed ++ [urn] = pre ++ b :: post ∧
                (∀ u ∈ pre, Matches u request = .ok true → Specificity u < Specificity b) ∧
                (∀ u ∈ post, Matches u request = .ok true →
                  Specificity u ≤ Specificity b)) := by
          rcases hinv with ⟨h1, h2, h3⟩ | ⟨b, pre, post, h1, h2, h3, h4, h5, h6⟩
          · exfalso
            have := specificity_nonneg urn
            omega
          · refine Or.inr ⟨b, pre, post ++ [urn], h1, h2, h3, ?_, h5, ?_⟩
            · rw [h4]
              simp
            · intro u hu hmu
              rcases List.mem_append.mp hu with hu | hu
              · exact h6 u hu hmu
              · rcases List.mem_singleton.mp hu with rfl
                omega
        obtain ⟨r, hr, hpost⟩ := ih (processed ++ [urn]) best bs hrestpfx hinv2
        refine ⟨r, hr, ?_⟩
        rwa [List.append_assoc, List.singleton_append] at hpost

/-- C8: for a candidate list sharing the request's prefix, `FindBestMatch`
returns `none` (no error) exactly when no candidate matches; otherwise it
returns a candidate that matches the request, has maximal specificity among
the matching candidates, and is the first-encountered one of that maximal
specificity (every earlier matching candidate is strictly less specific). -/
theorem C8_findBestMatch_best_and_first :
    ∀ (urns : List TaggedUrn) (request : TaggedUrn),
      (∀ u ∈ urns, u.pfx = request.pfx) →
      ∃ r, FindBestMatch urns request = .ok r ∧
        (r = none ↔ ∀ u ∈ urns, Matches u request = .ok false) ∧
        ∀ c, r = some c →
          Matches c request = .ok true ∧
          (∀ u ∈ urns, Matches u request = .ok true → Specificity u ≤ Specificity c) ∧
          ∃ pre post, urns = pre ++ c :: post ∧
            ∀ u ∈ pre, Matches u request = .ok true → Specificity u < Specificity c := by
  intro urns request hpfx
  obtain ⟨r, hr, hpost⟩ :=
    findBestMatchGo_spec request urns [] none (-1) hpfx
      (Or.inl ⟨rfl, rfl, by simp⟩)
  rw [List.nil_append] at hpost
  refine ⟨r, hr, ?_, ?_⟩
  · constructor
    · intro hnone
      rcases hpost with ⟨_, h2⟩ | ⟨c, _, _, h1, _, _, _, _⟩
      · exact h2
      · rw [h1] at hnone
        cases hnone
    · intro hall
      rcases hpost with ⟨h1, _⟩ | ⟨c, pre, post, h1, h2, h3, _, _⟩
      · exact h1
      · exfalso
        have hc : c ∈ urns := by
          rw [h3]
          simp
        rw [hall c hc] at h2
        cases h2
  · intro c hc
    rcases hpost with ⟨h1, _⟩ | ⟨c2, pre, post, h1, h2, h3, h4, h5⟩
    · rw [h1] at hc
      cases hc
    · rw [h1] at hc
      rcases Option.some.inj hc with rfl
      refine ⟨h2, ?_, pre, post, h3, h4⟩
      intro u hu hmu
      rw [h3] at hu
      rcases List.mem_append.mp hu with hu | hu
      · exact le_of_lt (h4 u hu hmu)
      · rcases List.mem_cons.mp hu with rfl | hu
        · exact le_refl _
        · exact h5 u hu hmu

/-- Closed witness for C8 on the spec's Scenario A candidates. -/
theorem C8_witness :
    ∃ r, FindBestMatch
        [⟨"p", [("op", "*")]⟩, ⟨"p", [("op", "generate")]⟩,
          ⟨"p", [("ext", "pdf"), ("op", "generate")]⟩]
        ⟨"p", [("op", "generate")]⟩ = .ok r ∧
      (r = none ↔ ∀ u ∈ [⟨"p", [("op", "*")]⟩, ⟨"p", [("op", "generate")]⟩,
          (⟨"p", [("ext", "pdf"), ("op", "generate")]⟩ : TaggedUrn)],
        Matches u ⟨"p", [("op", "generate")]⟩ = .ok false) ∧
      ∀ c, r = some c →
        Matches c ⟨"p", [("op", "generate")]⟩ = .ok true ∧
        (∀ u ∈ [⟨"p", [("op", "*")]⟩, ⟨"p", [("op", "generate")]⟩,
            (⟨"p", [("ext", "pdf"), ("op", "generate")]⟩ : TaggedUrn)],
          Matches u ⟨"p", [("op", "generate")]⟩ = .ok true →
            Specificity u ≤ Specificity c) ∧
        ∃ pre post,
          [⟨"p", [("op", "*")]⟩, ⟨"p", [("op", "generate")]⟩,
            (⟨"p", [("ext", "pdf"), ("op", "generate")]⟩ : TaggedUrn)] =
              pre ++ c :: post ∧
          ∀ u ∈ pre, Matches u ⟨"p", [("op", "generate")]⟩ = .ok true →
            Specificity u < Specificity c :=
  C8_findBestMatch_best_and_first
    [⟨"p", [("op", "*")]⟩, ⟨"p", [("op", "generate")]⟩,
      ⟨"p", [("ext", "pdf"), ("op", "generate")]⟩]
    ⟨"p", [("op", "generate")]⟩ (by decide)



/-- The spec's key invariants (section 3): non-empty, restricted charset,
not purely numeric, not the wildcard character alone. -/
def keyValid (k : String) : Prop :=
  k ≠ "" ∧ (∀ c ∈ k.data, isValidKeyChar c = true) ∧
    isPurelyNumeric k = false ∧ k ≠ "*"

/-- The spec's value invariant: values are non-empty. -/
def valueValid (v : String) : Prop := v ≠ ""

/-- The data-model invariants of spec section 3, on a whole URN. -/
def urnInvariant (u : TaggedUrn) : Prop :=
  ∀ kv ∈ u.tags, keyValid kv.1 ∧ valueValid kv.2

/-- Lowercasing preserves key-charset validity. -/
theorem isValidKeyChar_goToLower (c : Char) (h : isValidKeyChar c = true) :
    isValidKeyChar (goToLower c) = true := by
  by_cases h1 : c = 'A'
  · subst h1; decide
  by_cases h2 : c = 'B'
  · subst h2; decide
  by_cases h3 : c = 'C'
  · subst h3; decide
  by_cases h4 : c = 'D'
  · subst h4; decide
  by_cases h5 : c = 'E'
  · subst h5; decide
  by_cases h6 : c = 'F'
  · subst h6; decide
  by_cases h7 : c = 'G'
  · subst h7; decide
  by_cases h8 : c = 'H'
  · subst h8; decide
  by_cases h9 : c = 'I'
  · subst h9; decide
  by_cases h10 : c = 'J'
  · subst h10; decide
  by_cases h11 : c = 'K'
  · subst h11; decide
  by_cases h12 : c = 'L'
  · subst h12; decide
  by_cases h13 : c = 'M'
  · subst h13; decide
  by_cases h14 : c = 'N'
  · subst h14; decide
  by_cases h15 : c = 'O'
  · subst h15; decide
  by_cases h16 : c = 'P'
  · subst h16; decide
  by_cases h17 : c = 'Q'
  · subst h17; decide
  by_cases h18 : c = 'R'
  · subst h18; decide
  by_cases h19 : c = 'S'
  · subst h19; decide
  by_cases h20 : c = 'T'
  · subst h20; decide
  by_cases h21 : c = 'U'
  · subst h21; decide
  by_cases h22 : c = 'V'
  · subst h22; decide
  by_cases h23 : c = 'W'
  · subst h23; decide
  by_cases h24 : c = 'X'
  · subst h24; decide
  by_cases h25 : c = 'Y'
  · subst h25; decide
  by_cases h26 : c = 'Z'
  · subst h26; decide
  simp only [goToLower, if_neg h1, if_neg h2, if_neg h3, if_neg h4, if_neg h5, if_neg h6, if_neg h7, if_neg h8, if_neg h9, if_neg h10, if_neg h11, if_neg h12, if_neg h13, if_neg h14, if_neg h15, if_neg h16, if_neg h17, if_neg h18, if_neg h19, if_neg h20, if_neg h21, if_neg h22, if_neg h23, if_neg h24, if_neg h25, if_neg h26]
  exact h

/-- Membership after `tagsInsert`: the inserted pair or an original one. -/
theorem mem_tagsInsert :
    ∀ (t : List (String × String)) (key val : String) (kv : String × String),
      kv ∈ tagsInsert t key val → kv = (key, val) ∨ kv ∈ t := by
  intro t key val kv h
  induction t with
  | nil =>
    simp only [tagsInsert, List.mem_singleton] at h
    exact Or.inl h
  | cons hd tl ih =>
    obtain ⟨k, v⟩ := hd
    simp only [tagsInsert] at h
    split_ifs at h with h1 h2
    · rcases List.mem_cons.mp h with rfl | h3
      · exact Or.inl rfl
      · exact Or.inr (List.mem_cons_of_mem _ h3)
    · rcases List.mem_cons.mp h with rfl | h3
      · exact Or.inl rfl
      · exact Or.inr h3
    · rcases List.mem_cons.mp h with rfl | h3
      · exact Or.inr (List.mem_cons_self _ _)
      · rcases ih h3 with h4 | h4
        · exact Or.inl h4
        · exact Or.inr (List.mem_cons_of_mem _ h4)

/-- A tag stored by `finishTag` passes all the key/value checks. -/
theorem finishTag_invariant (tags : List (String × String)) (ck cv : List Char)
    (htags : ∀ kv ∈ tags, keyValid kv.1 ∧ valueValid kv.2)
    (hck : ∀ c ∈ ck, isValidKeyChar c = true)
    (tags1 : List (String × String)) (h : finishTag tags ck cv = .ok tags1) :
    ∀ kv ∈ tags1, keyValid kv.1 ∧ valueValid kv.2 := by
  unfold finishTag at h
  split_ifs at h with h1 h2 h3 h4
  have heq : tagsInsert tags (String.mk ck) (String.mk cv) = tags1 := Except.ok.inj h
  subst heq
  intro kv hkv
  rcases mem_tagsInsert _ _ _ _ hkv with hkv1 | hkv2
  · subst hkv1
    refine ⟨⟨h1, hck, by simpa using h4, ?_⟩, h2⟩
    intro hstar
    have hdata : ck = ['*'] := by
      have h5 := congrArg String.data hstar
      simpa using h5
    have h6 := hck '*' (by rw [hdata]; exact List.mem_singleton.mpr rfl)
    simp [isValidKeyChar, goIsLetter, goIsDigit] at h6
  · exact htags kv hkv2


/-- One-step unfoldings of the end-of-input switch of the parser loop. -/
theorem parseLoop_nil (tags : List (String × String)) (ck cv : List Char) :
    parseLoop [] .expectingKey tags ck cv = .ok tags ∧
    parseLoop [] .inKey tags ck cv =
      (if ck = [] then .error ⟨ErrorEmptyTag⟩ else finishTag tags ck (cv ++ ['*'])) ∧
    parseLoop [] .expectingValue tags ck cv = .error ⟨ErrorEmptyTag⟩ ∧
    parseLoop [] .inUnquotedValue tags ck cv = finishTag tags ck cv ∧
    parseLoop [] .inQuotedValue tags ck cv = .error ⟨ErrorUnterminatedQuote⟩ ∧
    parseLoop [] .inQuotedValueEscape tags ck cv = .error ⟨ErrorUnterminatedQuote⟩ ∧
    parseLoop [] .expectingSemiOrEnd tags ck cv = finishTag tags ck cv :=
  ⟨rfl, rfl, rfl, rfl, rfl, rfl, rfl⟩

/-- One-step unfolding of the loop in state `stateExpectingKey`. -/
theorem parseLoop_cons_expectingKey (c : Char) (rest : List Char)
    (tags : List (String × String)) (ck cv : List Char) :
    parseLoop (c :: rest) .expectingKey tags ck cv =
      if c = ';' then parseLoop rest .expectingKey tags ck cv
      else if isValidKeyChar c then
        parseLoop rest .inKey tags (ck ++ [goToLower c]) cv
      else .error ⟨ErrorInvalidCharacter⟩ := rfl

/-- One-step unfolding of the loop in state `stateInKey`. -/
theorem parseLoop_cons_inKey (c : Char) (rest : List Char)
    (tags : List (String × String)) (ck cv : List Char) :
    parseLoop (c :: rest) .inKey tags ck cv =
      if c = '=' then
        (if ck = [] then .error ⟨ErrorEmptyTag⟩
          else parseLoop rest .expectingValue tags ck cv)
      else if c = ';' then
        (if ck = [] then .error ⟨ErrorEmptyTag⟩
          else
            match finishTag tags ck (cv ++ ['*']) with
            | .error e => .error e
            | .ok tags1 => parseLoop rest .expectingKey tags1 [] [])
      else if isValidKeyChar c then
        parseLoop rest .inKey tags (ck ++ [goToLower c]) cv
      else .error ⟨ErrorInvalidCharacter⟩ := rfl

/-- One-step unfolding of the loop in state `stateExpectingValue`. -/
theorem parseLoop_cons_expectingValue (c : Char) (rest : List Char)
    (tags : List (String × String)) (ck cv : List Char) :
    parseLoop (c :: rest) .expectingValue tags ck cv =
      if c = '"' then parseLoop rest .inQuotedValue tags ck cv
      else if c = ';' then .error ⟨ErrorEmptyTag⟩
      else if isValidUnquotedValueChar c then
        parseLoop rest .inUnquotedValue tags ck (cv ++ [goToLower c])
      else .error ⟨ErrorInvalidCharacter⟩ := rfl

/-- One-step unfolding of the loop in state `stateInUnquotedValue`. -/
theorem parseLoop_cons_inUnquotedValue (c : Char) (rest : List Char)
    (tags : List (String × String)) (ck cv : List Char) :
    parseLoop (c :: rest) .inUnquotedValue tags ck cv =
      if c = ';' then
        match finishTag tags ck cv with
        | .error e => .error e
        | .ok tags1 => parseLoop rest .expectingKey tags1 [] []
      else if isValidUnquotedValueChar c then
        parseLoop rest .inUnquotedValue tags ck (cv ++ [goToLower c])
      else .error ⟨ErrorInvalidCharacter⟩ := rfl

/-- One-step unfolding of the loop in state `stateInQuotedValue`. -/
theorem parseLoop_cons_inQuotedValue (c : Char) (rest : List Char)
    (tags : List (String × String)) (ck cv : List Char) :
    parseLoop (c :: rest) .inQuotedValue tags ck cv =
      if c = '"' then parseLoop rest .expectingSemiOrEnd tags ck cv
      else if c = '\\' then parseLoop rest .inQuotedValueEscape tags ck cv
      else parseLoop rest .inQuotedValue tags ck (cv ++ [c]) := rfl

/-- One-step unfolding of the loop in state `stateInQuotedValueEscape`. -/
theorem parseLoop_cons_inQuotedValueEscape (c : Char) (rest : List Char)
    (tags : List (String × String)) (ck cv : List Char) :
    parseLoop (c :: rest) .inQuotedValueEscape tags ck cv =
      if c = '"' || c = '\\' then parseLoop rest .inQuotedValue tags ck (cv ++ [c])
      else .error ⟨ErrorInvalidEscapeSequence⟩ := rfl

/-- One-step unfolding of the loop in state `stateExpectingSemiOrEnd`. -/
theorem parseLoop_cons_expectingSemiOrEnd (c : Char) (rest : List Char)
    (tags : List (String × String)) (ck cv : List Char) :
    parseLoop (c :: rest) .expectingSemiOrEnd tags ck cv =
      if c = ';' then
        match finishTag tags ck cv with
        | .error e => .error e
        | .ok tags1 => parseLoop rest .expectingKey tags1 [] []
      else .error ⟨ErrorInvalidCharacter⟩ := rfl


/-- Every tag in an `.ok` run of the parser loop satisfies the key/value
invariants, provided the accumulated state does. -/
theorem parseLoop_invariant :
    ∀ (input : List Char) (st : ParseState) (tags : List (String × String))
      (ck cv : List Char),
      (∀ kv ∈ tags, keyValid kv.1 ∧ valueValid kv.2) →
      (∀ c ∈ ck, isValidKeyChar c = true) →
      ∀ tags1, parseLoop input st tags ck cv = .ok tags1 →
        ∀ kv ∈ tags1, keyValid kv.1 ∧ valueValid kv.2 := by
  intro input
  induction input with
  | nil =>
    intro st tags ck cv htags hck tags1 h
    cases st
    case expectingKey =>
      rw [(parseLoop_nil tags ck cv).1] at h
      rcases Except.ok.inj h with rfl
      exact htags
    case inKey =>
      rw [(parseLoop_nil tags ck cv).2.1] at h
      by_cases hk : ck = []
      · rw [if_pos hk] at h
        exact Except.noConfusion h
      · rw [if_neg hk] at h
        exact finishTag_invariant tags ck (cv ++ ['*']) htags hck tags1 h
    case expectingValue =>
      rw [(parseLoop_nil tags ck cv).2.2.1] at h
      exact Except.noConfusion h
    case inUnquotedValue =>
      rw [(parseLoop_nil tags ck cv).2.2.2.1] at h
      exact finishTag_invariant tags ck cv htags hck tags1 h
    case inQuotedValue =>
      rw [(parseLoop_nil tags ck cv).2.2.2.2.1] at h
      exact Except.noConfusion h
    case inQuotedValueEscape =>
      rw [(parseLoop_nil tags ck cv).2.2.2.2.2.1] at h
      exact Except.noConfusion h
    case expectingSemiOrEnd =>
      rw [(parseLoop_nil tags ck cv).2.2.2.2.2.2] at h
      exact finishTag_invariant tags ck cv htags hck tags1 h
  | cons c rest ih =>
    intro st tags ck cv htags hck tags1 h
    cases st
    case expectingKey =>
      rw [parseLoop_cons_expectingKey] at h
      by_cases h1 : c = ';'
      · rw [if_pos h1] at h
        exact ih .expectingKey tags ck cv htags hck tags1 h
      · rw [if_neg h1] at h
        by_cases h2 : isValidKeyChar c = true
        · rw [if_pos h2] at h
          refine ih .inKey tags (ck ++ [goToLower c]) cv htags ?_ tags1 h
          intro d hd
          rcases List.mem_append.mp hd with hd | hd
          · exact hck d hd
          · rcases List.mem_singleton.mp hd with rfl
            exact isValidKeyChar_goToLower c h2
        · rw [if_neg h2] at h
          exact Except.noConfusion h
    case inKey =>
      rw [parseLoop_cons_inKey] at h
      by_cases h1 : c = '='
      · rw [if_pos h1] at h
        by_cases hk : ck = []
        · rw [if_pos hk] at h
          exact Except.noConfusion h
        · rw [if_neg hk] at h
          exact ih .expectingValue tags ck cv htags hck tags1 h
      · rw [if_neg h1] at h
        by_cases h2 : c = ';'
        · rw [if_pos h2] at h
          by_cases hk : ck = []
          · rw [if_pos hk] at h
            exact Except.noConfusion h
          · rw [if_neg hk] at h
            rcases hft : finishTag tags ck (cv ++ ['*']) with e | tags2 <;> rw [hft] at h
            · exact Except.noConfusion h
            · exact ih .expectingKey tags2 [] []
                (finishTag_invariant tags ck (cv ++ ['*']) htags hck tags2 hft)
                (by simp) tags1 h
        · rw [if_neg h2] at h
          by_cases h3 : isValidKeyChar c = true
          · rw [if_pos h3] at h
            refine ih .inKey tags (ck ++ [goToLower c]) cv htags ?_ tags1 h
            intro d hd
            rcases List.mem_append.mp hd with hd | hd
            · exact hck d hd
            · rcases List.mem_singleton.mp hd with rfl
              exact isValidKeyChar_goToLower c h3
          · rw [if_neg h3] at h
            exact Except.noConfusion h
    case expectingValue =>
      rw [parseLoop_cons_expectingValue] at h
      by_cases h1 : c = '"'
      · rw [if_pos h1] at h
        exact ih .inQuotedValue tags ck cv htags hck tags1 h
      · rw [if_neg h1] at h
        by_cases h2 : c = ';'
        · rw [if_pos h2] at h
          exact Except.noConfusion h
        · rw [if_neg h2] at h
          by_cases h3 : isValidUnquotedValueChar c = true
          · rw [if_pos h3] at h
            exact ih .inUnquotedValue tags ck (cv ++ [goToLower c]) htags hck tags1 h
          · rw [if_neg h3] at h
            exact Except.noConfusion h
    case inUnquotedValue =>
      rw [parseLoop_cons_inUnquotedValue] at h
      by_cases h1 : c = ';'
      · rw [if_pos h1] at h
        rcases hft : finishTag tags ck cv with e | tags2 <;> rw [hft] at h
        · exact Except.noConfusion h
        · exact ih .expectingKey tags2 [] []
            (finishTag_invariant tags ck cv htags hck tags2 hft) (by simp) tags1 h
      · rw [if_neg h1] at h
        by_cases h2 : isValidUnquotedValueChar c = true
        · rw [if_pos h2] at h
          exact ih .inUnquotedValue tags ck (cv ++ [goToLower c]) htags hck tags1 h
        · rw [if_neg h2] at h
          exact Except.noConfusion h
    case inQuotedValue =>
      rw [parseLoop_cons_inQuotedValue] at h
      by_cases h1 : c = '"'
      · rw [if_pos h1] at h
        exact ih .expectingSemiOrEnd tags ck cv htags hck tags1 h
      · rw [if_neg h1] at h
        by_cases h2 : c = '\\'
        · rw [if_pos h2] at h
          exact ih .inQuotedValueEscape tags ck cv htags hck tags1 h
        · rw [if_neg h2] at h
          exact ih .inQuotedValue tags ck (cv ++ [c]) htags hck tags1 h
    case inQuotedValueEscape =>
      rw [parseLoop_cons_inQuotedValueEscape] at h
      by_cases h1 : (c = '"' || c = '\\') = true
      · rw [if_pos h1] at h
        exact ih .inQuotedValue tags ck (cv ++ [c]) htags hck tags1 h
      · rw [if_neg h1] at h
        exact Except.noConfusion h
    case expectingSemiOrEnd =>
      rw [parseLoop_cons_expectingSemiOrEnd] at h
      by_cases h1 : c = ';'
      · rw [if_pos h1] at h
        rcases hft : finishTag tags ck cv with e | tags2 <;> rw [hft] at h
        · exact Except.noConfusion h
        · exact ih .expectingKey tags2 [] []
            (finishTag_invariant tags ck cv htags hck tags2 hft) (by simp) tags1 h
      · rw [if_neg h1] at h
        exact Except.noConfusion h


/-- Every successfully parsed URN satisfies the data-model invariants. -/
theorem parse_urnInvariant (s : String) (u : TaggedUrn)
    (h : NewTaggedUrnFromString s = .ok u) : urnInvariant u := by
  unfold NewTaggedUrnFromString at h
  split_ifs at h with h1
  rcases hsp : splitAtFirstColon s.data with _ | ⟨bc, ac⟩ <;> rw [hsp] at h
  · exact Except.noConfusion h
  · have h2 : (if bc = [] then (.error ⟨ErrorPrefixIsEmpty⟩ : Except TaggedUrnError TaggedUrn)
        else
          match parseTagsPart ac with
          | .error e => .error e
          | .ok tags => .ok ⟨String.mk (bc.map goToLower), tags⟩) = .ok u := h
    by_cases h3 : bc = []
    · rw [if_pos h3] at h2
      exact Except.noConfusion h2
    · rw [if_neg h3] at h2
      rcases hpt : parseTagsPart ac with e | tags <;> rw [hpt] at h2
      · exact Except.noConfusion h2
      · have h4 : (TaggedUrn.mk (String.mk (bc.map goToLower)) tags) = u :=
          Except.ok.inj h2
        subst h4
        intro kv hkv
        unfold parseTagsPart at hpt
        split_ifs at hpt with h5
        · have h6 : ([] : List (String × String)) = tags := Except.ok.inj hpt
          rw [← h6] at hkv
          cases hkv
        · exact parseLoop_invariant ac .expectingKey [] [] []
            (by simp) (by simp) tags hpt kv hkv

/-- Membership after folding `tagsInsert` over a list of pairs. -/
theorem mem_foldl_tagsInsert :
    ∀ (l acc : List (String × String)) (kv : String × String),
      kv ∈ l.foldl (fun acc2 kv2 => tagsInsert acc2 kv2.1 kv2.2) acc →
      kv ∈ acc ∨ kv ∈ l := by
  intro l
  induction l with
  | nil =>
    intro acc kv h
    exact Or.inl (by simpa using h)
  | cons hd tl ih =>
    intro acc kv h
    simp only [List.foldl_cons] at h
    rcases ih _ kv h with h2 | h2
    · rcases mem_tagsInsert _ _ _ _ h2 with h3 | h3
      · right
        rw [h3, Prod.mk.eta]
        exact List.mem_cons_self _ _
      · exact Or.inl h3
    · exact Or.inr (List.mem_cons_of_mem _ h2)

/-- `Merge` preserves the data-model invariants. -/
theorem merge_urnInvariant (a b m : TaggedUrn)
    (ha : urnInvariant a) (hb : urnInvariant b) (h : Merge a b = .ok m) :
    urnInvariant m := by
  unfold Merge at h
  split_ifs at h with h1
  have h2 : (TaggedUrn.mk a.pfx
      (b.tags.foldl (fun acc kv => tagsInsert acc kv.1 kv.2) a.tags)) = m :=
    Except.ok.inj h
  subst h2
  intro kv hkv
  rcases mem_foldl_tagsInsert b.tags a.tags kv hkv with h2 | h2
  · exact ha kv h2
  · exact hb kv h2

/-- C9 counterexample: the programmatic construction surface performs no
validation.  `NewTaggedUrnFromTags` stores an empty key with an empty
value, `WithTag` stores the wildcard character alone as a key with an
empty value, and the builder accepts a purely numeric key. -/
theorem C9_counterexample :
    (NewTaggedUrnFromTags "p" [("", "")]).tags = [("", "")] ∧
    WithTag ⟨"p", []⟩ "*" "" = ⟨"p", [("*", "")]⟩ ∧
    (TaggedUrnBuilder.Tag (NewTaggedUrnBuilder "p") "7" "x").Build =
      .ok ⟨"p", [("7", "x")]⟩ := by
  refine ⟨rfl, rfl, rfl⟩

/-- C9 amended: the data-model invariants (keys non-empty, restricted
charset, never purely numeric, never the wildcard alone; values non-empty)
hold for every URN produced by `NewTaggedUrnFromString`, and `Merge`
preserves them; the programmatic constructors (`NewTaggedUrnFromTags`, the
builder's `Tag`/`Build`, `WithTag`) do not validate and can violate them
(see the counterexample). -/
theorem C9_amended_invariants :
    (∀ (s : String) (u : TaggedUrn), NewTaggedUrnFromString s = .ok u → urnInvariant u) ∧
    (∀ a b m : TaggedUrn, urnInvariant a → urnInvariant b →
        Merge a b = .ok m → urnInvariant m) :=
  ⟨parse_urnInvariant, merge_urnInvariant⟩

/-- Closed witness for C9's amended statement at a concrete parse and a
concrete merge. -/
theorem C9_witness :
    urnInvariant ⟨"p", [("op", "test")]⟩ ∧
    urnInvariant ⟨"p", [("ext", "pdf"), ("op", "generate")]⟩ :=
  ⟨C9_amended_invariants.1 "p:op=test" ⟨"p", [("op", "test")]⟩ rfl,
   C9_amended_invariants.2 ⟨"p", [("op", "generate")]⟩ ⟨"p", [("ext", "pdf")]⟩
     ⟨"p", [("ext", "pdf"), ("op", "generate")]⟩
     (C9_amended_invariants.1 "p:op=generate" ⟨"p", [("op", "generate")]⟩ rfl)
     (C9_amended_invariants.1 "p:ext=pdf" ⟨"p", [("ext", "pdf")]⟩ rfl)
     rfl⟩

end TaggedUrnGo
